import Mathlib

/-!
Verification of the face-authentication repository's core logic:
the database layer (`database.py`), the face analyzer (`face_analyzer.py`)
and the registration flow (`register_face.py`), shallowly embedded.

Embeddings (facial feature vectors) are modelled as lists of rationals.
Distances computed by the external pgvector operator are modelled by an
arbitrary distance function parameter, since the repository delegates the
distance computation entirely to the database extension.
-/

/-- A facial embedding vector. -/
def Emb : Type := List ℚ

instance : DecidableEq Emb := by
  unfold Emb
  infer_instance

/-- A Python float value as it appears in results: a number or `float(inf)`. -/
inductive PyFloat where
  | val (q : ℚ)
  | inf
deriving DecidableEq

/-- A row of the `face_embeddings` table: display name and embedding. -/
structure FaceRecord where
  name : String
  embedding : Emb
deriving DecidableEq

/-- `DISTANCE_THRESHOLD = 0.5` from `database.py`. -/
def DISTANCE_THRESHOLD : ℚ := 1/2

/-- The database connection state relevant to the embedded functions: the
stored records and whether the next query raises a database error
(`psycopg.Error` or `ValueError`). -/
structure Conn where
  store : List FaceRecord
  queryFails : Bool

/-- The `SELECT name, embedding <=> %s AS distance ... ORDER BY distance ASC
LIMIT 1` query followed by `fetchone()`: returns the first record attaining
the minimal distance to the query embedding, or `none` on an empty table.
The distance operator itself is external (pgvector), hence the `dist`
parameter. -/
def nearestRecord (dist : Emb → Emb → ℚ) (store : List FaceRecord) (e : Emb) :
    Option (String × ℚ) :=
  match store with
  | [] => none
  | r :: rs =>
    some (rs.foldl
      (fun best r2 =>
        if dist r2.embedding e < best.2 then (r2.name, dist r2.embedding e) else best)
      (r.name, dist r.embedding e))

/-- `find_similar_face` from `database.py`.  `conn = none` models a `None`
connection; `emb = none` models a `None` or non-ndarray embedding argument.
Returns the pair `(name, distance)` exactly as the Python function does. -/
def find_similar_face (dist : Emb → Emb → ℚ) (conn : Option Conn) (emb : Option Emb) :
    Option String × Option PyFloat :=
  match conn with
  | none => (none, some PyFloat.inf)
  | some c =>
    match emb with
    | none => (none, some PyFloat.inf)
    | some e =>
      if c.queryFails then (none, some PyFloat.inf)
      else
        match nearestRecord dist c.store e with
        | none => (none, none)
        | some (nm, d) =>
          if d < DISTANCE_THRESHOLD then (some nm, some (PyFloat.val d))
          else (none, some (PyFloat.val d))

/-- `add_face` from `database.py`, acting on the store.  `emb = none` models a
`None` or non-ndarray embedding; `fails` models a `psycopg.Error` during the
insert (which rolls back).  Returns the Python boolean result and the
resulting store. -/
def add_face (store : List FaceRecord) (name : String) (emb : Option Emb)
    (fails : Bool) : Bool × List FaceRecord :=
  match emb with
  | none => (false, store)
  | some e =>
    if fails then (false, store)
    else (true, store ++ [⟨name, e⟩])

/-- The database operations this system can perform, as visible at the store:
`add_face`, `find_similar_face`, and table creation from
`init_database` (the Python database-setup function, which only issues
`CREATE ... IF NOT EXISTS` statements). -/
inductive DbOp where
  | addF (name : String) (emb : Option Emb) (fails : Bool)
  | findSim (emb : Option Emb) (fails : Bool)
  | initDb (fails : Bool)

/-- Effect of one database operation on the stored records.  `find_similar_face`
runs a `SELECT` only; the setup function runs `CREATE ... IF NOT EXISTS`
statements, which never touch existing rows, and rolls back on error. -/
def applyOp (store : List FaceRecord) : DbOp → List FaceRecord
  | DbOp.addF n e f => (add_face store n e f).2
  | DbOp.findSim _ _ => store
  | DbOp.initDb _ => store

-- Basic facts about `nearestRecord`.

/-- The fold inside `nearestRecord` returns a pair realised by some record in
the candidate pool `full`, provided the seed is and the traversed list is
contained in the pool. -/
theorem nearestRecord_foldl_spec (dist : Emb → Emb → ℚ) (e : Emb)
    (rs : List FaceRecord) (b : String × ℚ) (full : List FaceRecord)
    (hb : ∃ r ∈ full, r.name = b.1 ∧ dist r.embedding e = b.2)
    (hsub : ∀ r ∈ rs, r ∈ full) :
    ∃ r ∈ full, r.name = (rs.foldl
        (fun best r2 =>
          if dist r2.embedding e < best.2 then (r2.name, dist r2.embedding e) else best)
        b).1 ∧
      dist r.embedding e = (rs.foldl
        (fun best r2 =>
          if dist r2.embedding e < best.2 then (r2.name, dist r2.embedding e) else best)
        b).2 := by
  induction rs generalizing b with
  | nil => exact hb
  | cons r2 rs ih =>
    simp only [List.foldl_cons]
    by_cases h : dist r2.embedding e < b.2
    · rw [if_pos h]
      exact ih (r2.name, dist r2.embedding e)
        ⟨r2, hsub r2 (List.mem_cons_self _ _), rfl, rfl⟩
        (fun r hr => hsub r (List.mem_cons_of_mem _ hr))
    · rw [if_neg h]
      exact ih b hb (fun r hr => hsub r (List.mem_cons_of_mem _ hr))

/-- The fold inside `nearestRecord` never increases the distance component and
bounds every candidate's distance from below. -/
theorem nearestRecord_foldl_min (dist : Emb → Emb → ℚ) (e : Emb)
    (rs : List FaceRecord) (b : String × ℚ) :
    (rs.foldl
        (fun best r2 =>
          if dist r2.embedding e < best.2 then (r2.name, dist r2.embedding e) else best)
        b).2 ≤ b.2 ∧
    ∀ r ∈ rs, (rs.foldl
        (fun best r2 =>
          if dist r2.embedding e < best.2 then (r2.name, dist r2.embedding e) else best)
        b).2 ≤ dist r.embedding e := by
  induction rs generalizing b with
  | nil => exact ⟨le_refl _, by simp⟩
  | cons r2 rs ih =>
    simp only [List.foldl_cons]
    by_cases h : dist r2.embedding e < b.2
    · rw [if_pos h]
      rcases ih (r2.name, dist r2.embedding e) with ⟨h1, h2⟩
      refine ⟨le_trans h1 (le_of_lt h), ?_⟩
      intro r hr
      rcases List.mem_cons.mp hr with hr | hr
      · subst hr; exact h1
      · exact h2 r hr
    · rw [if_neg h]
      rcases ih b with ⟨h1, h2⟩
      refine ⟨h1, ?_⟩
      intro r hr
      rcases List.mem_cons.mp hr with hr | hr
      · subst hr; exact le_trans h1 (not_lt.mp h)
      · exact h2 r hr

/-- `nearestRecord` returns the name and distance of a genuinely nearest
record: a record of the store whose distance equals the returned distance,
below every other record's distance. -/
theorem nearestRecord_is_min (dist : Emb → Emb → ℚ) (store : List FaceRecord)
    (e : Emb) (nm : String) (d : ℚ)
    (h : nearestRecord dist store e = some (nm, d)) :
    (∃ r ∈ store, r.name = nm ∧ dist r.embedding e = d) ∧
    ∀ r ∈ store, d ≤ dist r.embedding e := by
  match store with
  | [] => simp [nearestRecord] at h
  | r0 :: rs =>
    simp only [nearestRecord, Option.some.injEq] at h
    constructor
    · rcases nearestRecord_foldl_spec dist e rs (r0.name, dist r0.embedding e)
        (r0 :: rs) ⟨r0, (List.mem_cons_self _ _), rfl, rfl⟩
        (fun r hr => List.mem_cons_of_mem _ hr) with ⟨r, hmem, hr1, hr2⟩
      rw [h] at hr1 hr2
      exact ⟨r, hmem, hr1, hr2⟩
    · rcases nearestRecord_foldl_min dist e rs (r0.name, dist r0.embedding e) with ⟨h1, h2⟩
      rw [h] at h1 h2
      intro r hr
      rcases List.mem_cons.mp hr with hr | hr
      · subst hr; exact h1
      · exact h2 r hr

-- Face analyzer model (`face_analyzer.py`).

/-- A face object as returned by the external `self.app.get(frame)` call:
bounding box, keypoints, detection score, a possibly missing raw embedding
and the normalised embedding derived from it (meaningful only when the raw
embedding is present). -/
structure RawFace where
  bbox : List Int
  kps : List (ℚ × ℚ)
  det_score : ℚ
  raw_embedding : Option Emb
  normed_embedding : Emb
deriving DecidableEq

/-- A frame with the data the analyzer observes about it: `size` models
`frame.size` (0 means an empty frame), `faces` is what the external model
detects in it, and `analysisFails` models an exception inside `app.get`. -/
structure Frame where
  size : Nat
  faces : List RawFace
  analysisFails : Bool
deriving DecidableEq

/-- A dictionary appended to the result list of `analyze_frame`.  The
`embedding` entry is kept as an `Option` because the claim under scrutiny is
precisely that it is never `None` in the returned list. -/
structure DetFace where
  bbox : List Int
  kps : List (ℚ × ℚ)
  det_score : ℚ
  embedding : Option Emb
deriving DecidableEq

/-- `FaceAnalyzer.analyze_frame`.  `app = false` models a failed model
initialisation (`self.app is None`); `frame = none` models a `None` frame.
Faces whose raw embedding is missing are skipped with a warning; the kept
entries carry the normalised embedding. -/
def analyze_frame (app : Bool) (frame : Option Frame) : List DetFace :=
  if app = false then []
  else
    match frame with
    | none => []
    | some f =>
      if f.size = 0 then []
      else if f.analysisFails then []
      else
        f.faces.filterMap (fun rf =>
          match rf.raw_embedding with
          | none => none
          | some _ => some ⟨rf.bbox, rf.kps, rf.det_score, some rf.normed_embedding⟩)

/-- Python's `max(face_results, key=lambda x: x['det_score'])` on a non-empty
list: scans left to right, replacing the current best only on a strictly
larger score, so the first maximal element wins. -/
def pyMaxByScore (r : DetFace) (rest : List DetFace) : DetFace :=
  rest.foldl (fun best x => if best.det_score < x.det_score then x else best) r

/-- `FaceAnalyzer.get_single_embedding`: analyze the frame, return `None` on an
empty result, otherwise the `embedding` entry of the most confident face. -/
def get_single_embedding (app : Bool) (frame : Option Frame) : Option Emb :=
  match analyze_frame app frame with
  | [] => none
  | r :: rest => (pyMaxByScore r rest).embedding

/-- The element chosen by `pyMaxByScore` is among the scanned elements. -/
theorem pyMaxByScore_mem (r : DetFace) (rest : List DetFace) :
    pyMaxByScore r rest ∈ r :: rest := by
  unfold pyMaxByScore
  induction rest generalizing r with
  | nil => exact (List.mem_cons_self _ _)
  | cons x xs ih =>
    simp only [List.foldl_cons]
    by_cases h : r.det_score < x.det_score
    · rw [if_pos h]
      rcases List.mem_cons.mp (ih x) with h' | h'
      · rw [h']; exact List.mem_cons_of_mem _ (List.mem_cons_self _ _)
      · exact List.mem_cons_of_mem _ (List.mem_cons_of_mem _ h')
    · rw [if_neg h]
      rcases List.mem_cons.mp (ih r) with h' | h'
      · rw [h']; exact (List.mem_cons_self _ _)
      · exact List.mem_cons_of_mem _ (List.mem_cons_of_mem _ h')

/-- The element chosen by `pyMaxByScore` attains the maximal detection score
among the scanned elements. -/
theorem pyMaxByScore_max (r : DetFace) (rest : List DetFace) :
    ∀ g ∈ r :: rest, g.det_score ≤ (pyMaxByScore r rest).det_score := by
  unfold pyMaxByScore
  induction rest generalizing r with
  | nil =>
    intro g hg
    rcases List.mem_cons.mp hg with h | h
    · simp [h]
    · simp at h
  | cons x xs ih =>
    intro g hg
    simp only [List.foldl_cons]
    by_cases h : r.det_score < x.det_score
    · rw [if_pos h]
      rcases List.mem_cons.mp hg with h' | h'
      · rw [h']
        exact le_trans (le_of_lt h) (ih x x (List.mem_cons_self _ _))
      · rcases List.mem_cons.mp h' with h'' | h''
        · rw [h'']; exact ih x x (List.mem_cons_self _ _)
        · exact ih x g (List.mem_cons_of_mem _ h'')
    · rw [if_neg h]
      rcases List.mem_cons.mp hg with h' | h'
      · rw [h']; exact ih r r (List.mem_cons_self _ _)
      · rcases List.mem_cons.mp h' with h'' | h''
        · rw [h'']
          exact le_trans (not_lt.mp h) (ih r r (List.mem_cons_self _ _))
        · exact ih r g (List.mem_cons_of_mem _ h'')

-- Registration flow model (`register_face.py`).

/-- A key observed by `cv2.waitKey` in one loop iteration. -/
inductive Key where
  | c
  | q
  | other
deriving DecidableEq

/-- One iteration's inputs to the registration loop: the result of
`cap.read()` and the key pressed during the iteration. -/
structure RegEvent where
  ret : Bool
  frame : Frame
  key : Key
deriving DecidableEq

/-- How the registration loop ends: with a captured embedding, with
`embedding_to_save = None` (quit or camera failure), or still running when
the supplied event sequence is exhausted. -/
inductive LoopResult where
  | captured (e : Emb)
  | aborted
  | running
deriving DecidableEq

/-- The `while True` loop of `capture_and_register`, driven by a finite list
of events.  State: `capReq` is `capture_requested`, `capturedF` is
`captured_frame`.  Each iteration reads a frame (breaking on failure),
analyzes it, extracts an embedding from the previously captured frame when a
capture was requested and faces are visible, and finally handles the key
press exactly as the Python loop does. -/
def regLoop (app : Bool) : List RegEvent → Bool → Option Frame → LoopResult
  | [], _, _ => LoopResult.running
  | ev :: rest, capReq, capturedF =>
    if ev.ret = false then LoopResult.aborted
    else
      match analyze_frame app (some ev.frame) with
      | [] =>
        -- no face in the current frame: no extraction; key handling rejects capture
        match ev.key with
        | Key.q => LoopResult.aborted
        | Key.c => regLoop app rest capReq capturedF
        | Key.other => regLoop app rest capReq capturedF
      | _ :: _ =>
        if capReq then
          match get_single_embedding app capturedF with
          | some e => LoopResult.captured e
          | none =>
            -- extraction failed: reset the request, then handle the key
            match ev.key with
            | Key.q => LoopResult.aborted
            | Key.c => regLoop app rest true (some ev.frame)
            | Key.other => regLoop app rest false capturedF
        else
          match ev.key with
          | Key.q => LoopResult.aborted
          | Key.c => regLoop app rest true (some ev.frame)
          | Key.other => regLoop app rest capReq capturedF

/-- Python's `str.strip()`: drop whitespace from both ends of the string. -/
def pyStrip (s : String) : String :=
  String.mk (((s.data.dropWhile Char.isWhitespace).reverse.dropWhile
    Char.isWhitespace).reverse)

/-- The name-prompt loop after a successful capture: strip each input, reject
empty names and reprompt, return the first non-empty stripped name (the one
passed to `add_face`), or `none` if the inputs run out while reprompting. -/
def nameLoop : List String → Option String
  | [] => none
  | s :: rest => if pyStrip s = "" then nameLoop rest else some (pyStrip s)

/-- `capture_and_register` end to end at the level of the store: run the
capture loop on the events, and if it produced an embedding, run the name
prompt and insert via `add_face` (whose possible database failure is the
`addFails` flag).  In every other case the store is left untouched. -/
def capture_and_register (app : Bool) (store : List FaceRecord)
    (events : List RegEvent) (names : List String) (addFails : Bool) :
    List FaceRecord :=
  match regLoop app events false none with
  | LoopResult.captured e =>
    match nameLoop names with
    | some n => (add_face store n (some e) addFails).2
    | none => store
  | _ => store

/-- A non-empty store always yields a row from the `LIMIT 1` query. -/
theorem nearestRecord_isSome (dist : Emb → Emb → ℚ) (store : List FaceRecord)
    (e : Emb) (h : store ≠ []) :
    ∃ nm d, nearestRecord dist store e = some (nm, d) := by
  cases store with
  | nil => exact absurd rfl h
  | cons r rs => exact ⟨_, _, rfl⟩

/-- One database operation can only append records to the store. -/
theorem applyOp_extends (store : List FaceRecord) (op : DbOp) :
    ∃ t, applyOp store op = store ++ t := by
  cases op with
  | addF n e f =>
    cases e with
    | none => exact ⟨[], by simp [applyOp, add_face]⟩
    | some e' =>
      cases f with
      | false => exact ⟨[⟨n, e'⟩], by simp [applyOp, add_face]⟩
      | true => exact ⟨[], by simp [applyOp, add_face]⟩
  | findSim e f => exact ⟨[], by simp [applyOp]⟩
  | initDb f => exact ⟨[], by simp [applyOp]⟩

/-- C1: for every query embedding whose distance to the nearest stored record
is strictly below `DISTANCE_THRESHOLD`, `find_similar_face` returns that
nearest record's name together with that distance, both components
non-`None`; the returned name and distance are realised by a stored record
whose distance is minimal over the whole store. -/
theorem find_similar_face_match_below_threshold (dist : Emb → Emb → ℚ)
    (store : List FaceRecord) (e : Emb) (nm : String) (d : ℚ)
    (h : nearestRecord dist store e = some (nm, d))
    (hd : d < DISTANCE_THRESHOLD) :
    find_similar_face dist (some ⟨store, false⟩) (some e) =
      (some nm, some (PyFloat.val d)) ∧
    (∃ r ∈ store, r.name = nm ∧ dist r.embedding e = d) ∧
    ∀ r ∈ store, d ≤ dist r.embedding e := by
  obtain ⟨hex, hmin⟩ := nearestRecord_is_min dist store e nm d h
  refine ⟨?_, hex, hmin⟩
  simp [find_similar_face, h, hd]

/-- A concrete distance function used to instantiate the abstract pgvector
distance in witnesses. -/
def demoDist : Emb → Emb → ℚ :=
  fun a b => if a = b then 0 else 1

/-- A concrete embedding. -/
def demoEmb : Emb := [1]

/-- A second concrete embedding, distinct from `demoEmb`. -/
def demoEmb2 : Emb := [2]

/-- Zero is below the configured threshold. -/
theorem zero_lt_threshold : (0 : ℚ) < DISTANCE_THRESHOLD := by
  norm_num [DISTANCE_THRESHOLD]

/-- One is not below the configured threshold. -/
theorem one_not_lt_threshold : ¬ (1 : ℚ) < DISTANCE_THRESHOLD := by
  norm_num [DISTANCE_THRESHOLD]

/-- Witness for C1 at a one-record store queried with the stored embedding. -/
theorem find_similar_face_match_below_threshold_witness :
    nearestRecord demoDist [⟨"alice", demoEmb⟩] demoEmb = some ("alice", 0) ∧
    (0 : ℚ) < DISTANCE_THRESHOLD ∧
    find_similar_face demoDist (some ⟨[⟨"alice", demoEmb⟩], false⟩) (some demoEmb) =
      (some "alice", some (PyFloat.val 0)) :=
  ⟨rfl, zero_lt_threshold,
    (find_similar_face_match_below_threshold demoDist [⟨"alice", demoEmb⟩]
      demoEmb "alice" 0 rfl zero_lt_threshold).1⟩

/-- C3: against a non-empty store where no record lies within the threshold,
`find_similar_face` returns no match but still returns the distance to the
nearest stored record. -/
theorem find_similar_face_no_match_reports_distance (dist : Emb → Emb → ℚ)
    (store : List FaceRecord) (e : Emb) (hne : store ≠ [])
    (hfar : ∀ r ∈ store, ¬ dist r.embedding e < DISTANCE_THRESHOLD) :
    ∃ d : ℚ,
      find_similar_face dist (some ⟨store, false⟩) (some e) =
        (none, some (PyFloat.val d)) ∧
      (∃ r ∈ store, dist r.embedding e = d) ∧
      ∀ r ∈ store, d ≤ dist r.embedding e := by
  obtain ⟨nm, d, hnr⟩ := nearestRecord_isSome dist store e hne
  obtain ⟨⟨r, hr, _, hrd⟩, hmin⟩ := nearestRecord_is_min dist store e nm d hnr
  have hd : ¬ d < DISTANCE_THRESHOLD := by rw [← hrd]; exact hfar r hr
  refine ⟨d, ?_, ⟨r, hr, hrd⟩, hmin⟩
  simp [find_similar_face, hnr, hd]

/-- Every record of the demo store lies at distance 1 ≥ threshold from
`demoEmb2`. -/
theorem demo_store_far :
    ∀ r ∈ ([⟨"alice", demoEmb⟩] : List FaceRecord),
      ¬ demoDist r.embedding demoEmb2 < DISTANCE_THRESHOLD := by
  intro r hr
  simp only [List.mem_singleton] at hr
  subst hr
  have h1 : demoDist demoEmb demoEmb2 = 1 := by decide
  simpa [h1] using one_not_lt_threshold

/-- Witness for C3: one stored record at distance 1 from the query. -/
theorem find_similar_face_no_match_reports_distance_witness :
    ([⟨"alice", demoEmb⟩] : List FaceRecord) ≠ [] ∧
    (∀ r ∈ ([⟨"alice", demoEmb⟩] : List FaceRecord),
      ¬ demoDist r.embedding demoEmb2 < DISTANCE_THRESHOLD) ∧
    ∃ d : ℚ,
      find_similar_face demoDist (some ⟨[⟨"alice", demoEmb⟩], false⟩) (some demoEmb2) =
        (none, some (PyFloat.val d)) ∧
      (∃ r ∈ ([⟨"alice", demoEmb⟩] : List FaceRecord),
        demoDist r.embedding demoEmb2 = d) ∧
      ∀ r ∈ ([⟨"alice", demoEmb⟩] : List FaceRecord),
        d ≤ demoDist r.embedding demoEmb2 :=
  ⟨by decide, demo_store_far,
    find_similar_face_no_match_reports_distance demoDist [⟨"alice", demoEmb⟩]
      demoEmb2 (by decide) demo_store_far⟩

/-- C4: a failing query, an absent connection, or an invalid embedding all
make `find_similar_face` return the sentinel `(None, float(inf))`, and the
lookup never changes the store. -/
theorem find_similar_face_error_sentinel (dist : Emb → Emb → ℚ)
    (store : List FaceRecord) (e : Emb) (c : Conn) (emb : Option Emb) :
    find_similar_face dist (some ⟨store, true⟩) (some e) = (none, some PyFloat.inf) ∧
    find_similar_face dist none emb = (none, some PyFloat.inf) ∧
    find_similar_face dist (some c) none = (none, some PyFloat.inf) ∧
    ∀ fails, applyOp store (DbOp.findSim emb fails) = store := by
  refine ⟨by simp [find_similar_face], by simp [find_similar_face], ?_, ?_⟩
  · simp [find_similar_face]
  · intro fails
    simp [applyOp]

/-- C5: with an empty identity store, `find_similar_face` never reports a
match, whatever the embedding argument and whether or not the query
errors. -/
theorem find_similar_face_empty_store_no_match (dist : Emb → Emb → ℚ)
    (emb : Option Emb) (fails : Bool) :
    (find_similar_face dist (some ⟨[], fails⟩) emb).1 = none := by
  cases emb with
  | none => simp [find_similar_face]
  | some e =>
    cases fails with
    | false => simp [find_similar_face, nearestRecord]
    | true => simp [find_similar_face]

/-- C8: for every sequence of database operations this system performs,
the resulting store is the original store extended at the end: every
existing record remains present, unmodified and in place — records are
never updated or deleted. -/
theorem store_records_never_updated_or_deleted (ops : List DbOp)
    (store : List FaceRecord) :
    ∃ t, ops.foldl applyOp store = store ++ t := by
  induction ops generalizing store with
  | nil => exact ⟨[], by simp⟩
  | cons op ops ih =>
    obtain ⟨t0, h0⟩ := applyOp_extends store op
    obtain ⟨t1, h1⟩ := ih (applyOp store op)
    exact ⟨t0 ++ t1, by rw [List.foldl_cons, h1, h0, List.append_assoc]⟩

/-- Every dictionary in the list built by `analyze_frame` was appended in the
branch where the raw embedding was present, so its `embedding` entry is
`some` of the face's normalised embedding. -/
theorem analyze_frame_embedding_shape (app : Bool) (frame : Option Frame)
    (f : DetFace) (hf : f ∈ analyze_frame app frame) :
    ∃ em : Emb, f.embedding = some em := by
  cases app with
  | false => simp [analyze_frame] at hf
  | true =>
    cases frame with
    | none => simp [analyze_frame] at hf
    | some fr =>
      simp only [analyze_frame, Bool.true_eq_false, if_false] at hf
      by_cases h0 : fr.size = 0
      · rw [if_pos h0] at hf; simp at hf
      · rw [if_neg h0] at hf
        by_cases h1 : fr.analysisFails = true
        · rw [if_pos h1] at hf; simp at hf
        · rw [if_neg h1] at hf
          rcases List.mem_filterMap.mp hf with ⟨rf, _, hrf⟩
          cases hre : rf.raw_embedding with
          | none => rw [hre] at hrf; exact absurd hrf (by simp)
          | some e =>
            rw [hre] at hrf
            have hrf' : (⟨rf.bbox, rf.kps, rf.det_score,
                some rf.normed_embedding⟩ : DetFace) = f := by
              exact Option.some.inj hrf
            exact ⟨rf.normed_embedding, by rw [← hrf']⟩

/-- C9: every element of the list returned by `analyze_frame` carries a
non-`None` embedding entry, so the authentication loop's per-face access
`face[embedding]` never sees a missing or `None` value. -/
theorem analyze_frame_embeddings_present (app : Bool) (frame : Option Frame)
    (f : DetFace) (hf : f ∈ analyze_frame app frame) :
    f.embedding.isSome := by
  obtain ⟨em, hem⟩ := analyze_frame_embedding_shape app frame f hf
  rw [hem]; rfl

/-- A raw detected face used in concrete checks: detection score 2, embedding
present. -/
def demoRawFace1 : RawFace := ⟨[0, 0, 10, 10], [], 2, some demoEmb, demoEmb⟩

/-- A second raw detected face: detection score 1, embedding present. -/
def demoRawFace2 : RawFace := ⟨[5, 5, 15, 15], [], 1, some demoEmb2, demoEmb2⟩

/-- A frame in which the external model detects two faces. -/
def demoFrame : Frame := ⟨100, [demoRawFace1, demoRawFace2], false⟩

/-- A frame in which the external model detects no face. -/
def emptyFrame : Frame := ⟨100, [], false⟩

/-- The analyzer dictionary produced for `demoRawFace1`. -/
def demoDetFace1 : DetFace := ⟨[0, 0, 10, 10], [], 2, some demoEmb⟩

/-- The analyzer dictionary produced for `demoRawFace2`. -/
def demoDetFace2 : DetFace := ⟨[5, 5, 15, 15], [], 1, some demoEmb2⟩

/-- Witness for C9 on a concrete two-face frame. -/
theorem analyze_frame_embeddings_present_witness :
    demoDetFace1 ∈ analyze_frame true (some demoFrame) ∧
    (demoDetFace1.embedding.isSome : Prop) :=
  ⟨by decide,
    analyze_frame_embeddings_present true (some demoFrame) demoDetFace1 (by decide)⟩

/-- C10: `get_single_embedding` is `None` exactly when `analyze_frame` is
empty; on a non-empty analysis it returns the embedding entry of a face
attaining the maximum detection score. -/
theorem get_single_embedding_spec (app : Bool) (frame : Option Frame) :
    (get_single_embedding app frame = none ↔ analyze_frame app frame = []) ∧
    ∀ r rest, analyze_frame app frame = r :: rest →
      ∃ f ∈ r :: rest,
        (∀ g ∈ r :: rest, g.det_score ≤ f.det_score) ∧
        get_single_embedding app frame = f.embedding := by
  constructor
  · constructor
    · intro h
      cases hfr : analyze_frame app frame with
      | nil => rfl
      | cons r rest =>
        have hm := pyMaxByScore_mem r rest
        rw [← hfr] at hm
        obtain ⟨em, hem⟩ := analyze_frame_embedding_shape app frame _ hm
        unfold get_single_embedding at h
        rw [hfr] at h
        have h' : (pyMaxByScore r rest).embedding = none := h
        rw [hem] at h'
        exact absurd h' (by simp)
    · intro h
      unfold get_single_embedding
      rw [h]
  · intro r rest hfr
    refine ⟨pyMaxByScore r rest, pyMaxByScore_mem r rest,
      pyMaxByScore_max r rest, ?_⟩
    unfold get_single_embedding
    rw [hfr]

/-- Witness for C10 on a concrete two-face frame. -/
theorem get_single_embedding_spec_witness :
    analyze_frame true (some demoFrame) = demoDetFace1 :: [demoDetFace2] ∧
    ∃ f ∈ demoDetFace1 :: [demoDetFace2],
      (∀ g ∈ demoDetFace1 :: [demoDetFace2], g.det_score ≤ f.det_score) ∧
      get_single_embedding true (some demoFrame) = f.embedding :=
  ⟨by decide,
    (get_single_embedding_spec true (some demoFrame)).2 demoDetFace1 [demoDetFace2]
      (by decide)⟩

/-- A name returned by the name-prompt loop is never empty: the loop only
stops reprompting on a non-empty stripped input. -/
theorem nameLoop_ne_empty (inputs : List String) (n : String)
    (h : nameLoop inputs = some n) : n ≠ "" := by
  induction inputs with
  | nil => exact absurd h (by simp [nameLoop])
  | cons s rest ih =>
    unfold nameLoop at h
    by_cases hs : pyStrip s = ""
    · rw [if_pos hs] at h
      exact ih h
    · rw [if_neg hs] at h
      have h' : pyStrip s = n := Option.some.inj h
      rw [← h']
      exact hs

/-- A successful `get_single_embedding` exposes the analysis of its frame:
the result list is non-empty and the returned embedding is the `embedding`
entry of the first face attaining the maximal detection score. -/
theorem get_single_embedding_some (app : Bool) (fo : Option Frame) (e : Emb)
    (h : get_single_embedding app fo = some e) :
    ∃ r rest, analyze_frame app fo = r :: rest ∧
      (pyMaxByScore r rest).embedding = some e := by
  unfold get_single_embedding at h
  cases hfr : analyze_frame app fo with
  | nil =>
    rw [hfr] at h
    have h' : (none : Option Emb) = some e := h
    exact absurd h' (by simp)
  | cons r rest =>
    rw [hfr] at h
    exact ⟨r, rest, rfl, h⟩

/-- `analyze_frame` on an absent frame is always empty. -/
theorem analyze_frame_none (app : Bool) : analyze_frame app none = [] := by
  cases app <;> simp [analyze_frame]

/-- If the registration loop ends with a captured embedding, the capture is
anchored in the run: either a capture was already pending on entry and the
embedding comes from the pending frame, or some event in the list pressed
the capture key while its frame's analysis was non-empty, and the embedding
comes from that very frame. -/
theorem regLoop_captured_traced (app : Bool) (events : List RegEvent)
    (capReq : Bool) (capturedF : Option Frame) (e : Emb)
    (h : regLoop app events capReq capturedF = LoopResult.captured e) :
    (capReq = true ∧ ∃ f, capturedF = some f ∧
      get_single_embedding app (some f) = some e) ∨
    ∃ ev ∈ events, ev.ret = true ∧ ev.key = Key.c ∧
      analyze_frame app (some ev.frame) ≠ [] ∧
      get_single_embedding app (some ev.frame) = some e := by
  induction events generalizing capReq capturedF with
  | nil => exact absurd h (by simp [regLoop])
  | cons ev rest ih =>
    obtain ⟨ret, frame, key⟩ := ev
    unfold regLoop at h
    cases ret with
    | false =>
      have h' : LoopResult.aborted = LoopResult.captured e := h
      exact LoopResult.noConfusion h'
    | true =>
      cases hfr : analyze_frame app (some frame) with
      | nil =>
        cases key with
        | q =>
          have h' : LoopResult.aborted = LoopResult.captured e := by
            rw [hfr] at h; exact h
          exact LoopResult.noConfusion h'
        | c =>
          have h' : regLoop app rest capReq capturedF = LoopResult.captured e := by
            rw [hfr] at h; exact h
          rcases ih _ _ h' with hleft | ⟨ev', hm, hp⟩
          · exact Or.inl hleft
          · exact Or.inr ⟨ev', List.mem_cons_of_mem _ hm, hp⟩
        | other =>
          have h' : regLoop app rest capReq capturedF = LoopResult.captured e := by
            rw [hfr] at h; exact h
          rcases ih _ _ h' with hleft | ⟨ev', hm, hp⟩
          · exact Or.inl hleft
          · exact Or.inr ⟨ev', List.mem_cons_of_mem _ hm, hp⟩
      | cons d ds =>
        have hne : analyze_frame app (some frame) ≠ [] := by
          rw [hfr]; simp
        cases capReq with
        | true =>
          cases capturedF with
          | none =>
            have hnone : get_single_embedding app none = none := by
              unfold get_single_embedding
              rw [analyze_frame_none]
            cases key with
            | q =>
              have h' : LoopResult.aborted = LoopResult.captured e := by
                rw [hfr, hnone] at h; exact h
              exact LoopResult.noConfusion h'
            | c =>
              have h' : regLoop app rest true (some frame) = LoopResult.captured e := by
                rw [hfr, hnone] at h; exact h
              rcases ih _ _ h' with ⟨_, f, hf, hg⟩ | ⟨ev', hm, hp⟩
              · have hf' : frame = f := Option.some.inj hf
                exact Or.inr ⟨⟨true, frame, Key.c⟩, (List.mem_cons_self _ _), rfl, rfl,
                  hne, by rw [hf']; exact hg⟩
              · exact Or.inr ⟨ev', List.mem_cons_of_mem _ hm, hp⟩
            | other =>
              have h' : regLoop app rest false none = LoopResult.captured e := by
                rw [hfr, hnone] at h; exact h
              rcases ih _ _ h' with ⟨hcontra, _⟩ | ⟨ev', hm, hp⟩
              · exact Bool.noConfusion hcontra
              · exact Or.inr ⟨ev', List.mem_cons_of_mem _ hm, hp⟩
          | some f =>
            cases hg : get_single_embedding app (some f) with
            | some e2 =>
              have h' : LoopResult.captured e2 = LoopResult.captured e := by
                rw [hfr, hg] at h; exact h
              have he : e2 = e := by injection h'
              exact Or.inl ⟨rfl, f, rfl, by rw [hg, he]⟩
            | none =>
              cases key with
              | q =>
                have h' : LoopResult.aborted = LoopResult.captured e := by
                  rw [hfr, hg] at h; exact h
                exact LoopResult.noConfusion h'
              | c =>
                have h' : regLoop app rest true (some frame) = LoopResult.captured e := by
                  rw [hfr, hg] at h; exact h
                rcases ih _ _ h' with ⟨_, f2, hf2, hg2⟩ | ⟨ev', hm, hp⟩
                · have hf2' : frame = f2 := Option.some.inj hf2
                  exact Or.inr ⟨⟨true, frame, Key.c⟩, (List.mem_cons_self _ _), rfl, rfl,
                    hne, by rw [hf2']; exact hg2⟩
                · exact Or.inr ⟨ev', List.mem_cons_of_mem _ hm, hp⟩
              | other =>
                have h' : regLoop app rest false (some f) = LoopResult.captured e := by
                  rw [hfr, hg] at h; exact h
                rcases ih _ _ h' with ⟨hcontra, _⟩ | ⟨ev', hm, hp⟩
                · exact Bool.noConfusion hcontra
                · exact Or.inr ⟨ev', List.mem_cons_of_mem _ hm, hp⟩
        | false =>
          cases key with
          | q =>
            have h' : LoopResult.aborted = LoopResult.captured e := by
              rw [hfr] at h; exact h
            exact LoopResult.noConfusion h'
          | c =>
            have h' : regLoop app rest true (some frame) = LoopResult.captured e := by
              rw [hfr] at h; exact h
            rcases ih _ _ h' with ⟨_, f, hf, hg⟩ | ⟨ev', hm, hp⟩
            · have hf' : frame = f := Option.some.inj hf
              exact Or.inr ⟨⟨true, frame, Key.c⟩, (List.mem_cons_self _ _), rfl, rfl,
                hne, by rw [hf']; exact hg⟩
            · exact Or.inr ⟨ev', List.mem_cons_of_mem _ hm, hp⟩
          | other =>
            have h' : regLoop app rest false capturedF = LoopResult.captured e := by
              rw [hfr] at h; exact h
            rcases ih _ _ h' with ⟨hcontra, _⟩ | ⟨ev', hm, hp⟩
            · exact Bool.noConfusion hcontra
            · exact Or.inr ⟨ev', List.mem_cons_of_mem _ hm, hp⟩

/-- Any record in the store produced by the registration flow is either an
original record or carries the name returned by the name-prompt loop. -/
theorem capture_and_register_inserted_name (app : Bool) (store : List FaceRecord)
    (events : List RegEvent) (names : List String) (addFails : Bool)
    (r : FaceRecord) (hr : r ∈ capture_and_register app store events names addFails) :
    r ∈ store ∨ ∃ n, nameLoop names = some n ∧ r.name = n := by
  unfold capture_and_register at hr
  cases hl : regLoop app events false none with
  | captured e =>
    rw [hl] at hr
    cases hn : nameLoop names with
    | some n =>
      rw [hn] at hr
      cases addFails with
      | true =>
        have hr' : r ∈ store := by simpa [add_face] using hr
        exact Or.inl hr'
      | false =>
        have hr' : r ∈ store ++ [(⟨n, e⟩ : FaceRecord)] := by
          simpa [add_face] using hr
        rcases List.mem_append.mp hr' with h | h
        · exact Or.inl h
        · have : r = (⟨n, e⟩ : FaceRecord) := by simpa using h
          exact Or.inr ⟨n, rfl, by rw [this]⟩
    | none =>
      rw [hn] at hr
      exact Or.inl hr
  | aborted =>
    rw [hl] at hr
    exact Or.inl hr
  | running =>
    rw [hl] at hr
    exact Or.inl hr

/-- C7: a name that is empty after stripping is rejected and the loop
reprompts; the name-prompt loop only ever hands a non-empty name to
`add_face`, so the registration flow never inserts a record with an empty
name. -/
theorem registration_rejects_empty_name (inputs : List String) (s : String)
    (hs : pyStrip s = "") :
    nameLoop (s :: inputs) = nameLoop inputs ∧
    (∀ n, nameLoop inputs = some n → n ≠ "") ∧
    ∀ app store events addFails r,
      r ∈ capture_and_register app store events inputs addFails →
      r ∈ store ∨ r.name ≠ "" := by
  refine ⟨by simp [nameLoop, hs], fun n hn => nameLoop_ne_empty inputs n hn, ?_⟩
  intro app store events addFails r hr
  rcases capture_and_register_inserted_name app store events inputs addFails r hr with
    h | ⟨n, hn, hname⟩
  · exact Or.inl h
  · exact Or.inr (hname ▸ nameLoop_ne_empty inputs n hn)

/-- Witness for C7 with a whitespace-only first input. -/
theorem registration_rejects_empty_name_witness :
    pyStrip "  " = "" ∧
    (nameLoop ("  " :: ["bob"]) = nameLoop ["bob"] ∧
     (∀ n, nameLoop ["bob"] = some n → n ≠ "") ∧
     ∀ app store events addFails r,
       r ∈ capture_and_register app store events ["bob"] addFails →
       r ∈ store ∨ r.name ≠ "") :=
  ⟨by decide, registration_rejects_empty_name ["bob"] "  " (by decide)⟩

/-- C6: pressing the capture key while the current frame has no detected face
is a no-op: the frame is not saved, the capture state is unchanged, and the
loop continues exactly as if the event had not happened. -/
theorem capture_rejected_without_face (app : Bool) (ev : RegEvent)
    (rest : List RegEvent) (capReq : Bool) (capturedF : Option Frame)
    (hret : ev.ret = true) (hkey : ev.key = Key.c)
    (hno : analyze_frame app (some ev.frame) = []) :
    regLoop app (ev :: rest) capReq capturedF = regLoop app rest capReq capturedF := by
  obtain ⟨ret, frame, key⟩ := ev
  simp only at hret hkey hno
  subst hret hkey
  have key1 : regLoop app ((⟨true, frame, Key.c⟩ : RegEvent) :: rest) capReq capturedF
      = (match analyze_frame app (some frame) with
        | [] => regLoop app rest capReq capturedF
        | _ :: _ =>
          if capReq = true then
            match get_single_embedding app capturedF with
            | some e => LoopResult.captured e
            | none => regLoop app rest true (some frame)
          else regLoop app rest true (some frame)) := rfl
  rw [key1, hno]

/-- A registration event delivering a frame with no detected face while the
capture key is pressed. -/
def demoEmptyEvent : RegEvent := ⟨true, emptyFrame, Key.c⟩

/-- Witness for C6 on a concrete zero-face frame. -/
theorem capture_rejected_without_face_witness :
    demoEmptyEvent.ret = true ∧ demoEmptyEvent.key = Key.c ∧
    analyze_frame true (some demoEmptyEvent.frame) = [] ∧
    regLoop true [demoEmptyEvent] false none = regLoop true [] false none :=
  ⟨rfl, rfl, by decide,
    capture_rejected_without_face true demoEmptyEvent [] false none rfl rfl (by decide)⟩

/-- The event sequence of a registration session: the capture key is pressed
while two faces are visible, and the next frame completes the capture. -/
def demoRegEvents : List RegEvent :=
  [⟨true, demoFrame, Key.c⟩, ⟨true, demoFrame, Key.other⟩]

/-- Counterexample to C2 as stated: a captured frame containing two
confidently-detected faces still leads to an embedding being extracted and a
record being persisted (the most confident face's embedding). -/
theorem registration_two_faces_counterexample :
    (analyze_frame true (some demoFrame)).length = 2 ∧
    capture_and_register true [] demoRegEvents ["alice"] false =
      [⟨"alice", demoEmb⟩] := by decide

/-- If the registration flow changed the store at all, it appended exactly one
record, built from a captured embedding and the prompted name. -/
theorem capture_and_register_changes (app : Bool) (store : List FaceRecord)
    (events : List RegEvent) (names : List String) (addFails : Bool)
    (h : capture_and_register app store events names addFails ≠ store) :
    ∃ e n, regLoop app events false none = LoopResult.captured e ∧
      nameLoop names = some n ∧
      capture_and_register app store events names addFails = store ++ [⟨n, e⟩] := by
  unfold capture_and_register at h ⊢
  cases hl : regLoop app events false none with
  | captured e =>
    rw [hl] at h
    cases hn : nameLoop names with
    | some n =>
      rw [hn] at h
      cases addFails with
      | true => exact absurd (by simp [add_face]) h
      | false => exact ⟨e, n, rfl, rfl, by simp [add_face]⟩
    | none =>
      rw [hn] at h
      exact absurd rfl h
  | aborted => rw [hl] at h; exact absurd rfl h
  | running => rw [hl] at h; exact absurd rfl h

/-- C2 amended: the registration flow persists a record only when the capture
key was pressed during the run on a frame whose analysis found at least one
confidently-detected face — so zero detected faces never lead to a record —
and the persisted embedding is that of the face attaining the maximal
detection score in that captured frame, with a non-empty name. -/
theorem registration_persists_only_detected_best_face (app : Bool)
    (store : List FaceRecord) (events : List RegEvent) (names : List String)
    (addFails : Bool)
    (h : capture_and_register app store events names addFails ≠ store) :
    ∃ (ev : RegEvent) (e : Emb) (n : String) (r : DetFace) (rest : List DetFace),
      ev ∈ events ∧ ev.ret = true ∧ ev.key = Key.c ∧
      capture_and_register app store events names addFails = store ++ [⟨n, e⟩] ∧
      n ≠ "" ∧
      analyze_frame app (some ev.frame) = r :: rest ∧
      (∀ g ∈ r :: rest, g.det_score ≤ (pyMaxByScore r rest).det_score) ∧
      (pyMaxByScore r rest).embedding = some e := by
  obtain ⟨e, n, hl, hn, heq⟩ :=
    capture_and_register_changes app store events names addFails h
  rcases regLoop_captured_traced app events false none e hl with
    ⟨hcontra, _⟩ | ⟨ev, hm, hret, hkey, _, hge⟩
  · exact Bool.noConfusion hcontra
  · obtain ⟨r, rest, hfr, hemb⟩ := get_single_embedding_some app (some ev.frame) e hge
    exact ⟨ev, e, n, r, rest, hm, hret, hkey, heq, nameLoop_ne_empty names n hn, hfr,
      pyMaxByScore_max r rest, hemb⟩

/-- Witness for the amended C2 on the concrete two-face registration run. -/
theorem registration_persists_only_detected_best_face_witness :
    capture_and_register true [] demoRegEvents ["alice"] false ≠ [] ∧
    ∃ (ev : RegEvent) (e : Emb) (n : String) (r : DetFace) (rest : List DetFace),
      ev ∈ demoRegEvents ∧ ev.ret = true ∧ ev.key = Key.c ∧
      capture_and_register true [] demoRegEvents ["alice"] false = [] ++ [⟨n, e⟩] ∧
      n ≠ "" ∧
      analyze_frame true (some ev.frame) = r :: rest ∧
      (∀ g ∈ r :: rest, g.det_score ≤ (pyMaxByScore r rest).det_score) ∧
      (pyMaxByScore r rest).embedding = some e :=
  ⟨by decide,
    registration_persists_only_detected_best_face true [] demoRegEvents ["alice"]
      false (by decide)⟩
